import Mathlib

/-!
Shallow embedding of `arc_accounting_python/accounting.py` (SGE accounting
report tool): the core-hour calculator with its node-memory resolution chain,
the date-range parser, and the owner/user aggregation fold of `main`.

Conventions:
* Python ints are `Nat`/`Int` (Python ints are arbitrary precision).
* A Python function that can raise an uncaught exception is embedded as an
  `Option`-returning function, `none` marking the raise.
* Epoch seconds are `Int` (dates before 1970 give negative values).
* The helper module `sge` (same repository, not under `src/`) is modelled
  from the spec where noted.
-/

namespace Acct

/-- The per-(owner,user) usage cell of `main`'s dict-of-dicts:
`{ 'jobs': 0, 'time': 0, 'time_adj': 0 }` (accounting.py line 163). -/
structure Totals where
  jobs : Nat
  time : Nat
  time_adj : Nat
deriving DecidableEq, Repr

instance : Zero Totals := ⟨⟨0, 0, 0⟩⟩

instance : Add Totals := ⟨fun a b => ⟨a.jobs + b.jobs, a.time + b.time, a.time_adj + b.time_adj⟩⟩

instance : AddCommMonoid Totals where
  add_assoc a b c := by
    simp [show ∀ x y : Totals,
        x + y = ⟨x.jobs + y.jobs, x.time + y.time, x.time_adj + y.time_adj⟩
      from fun x y => rfl, Nat.add_assoc]
  zero_add a := by
    cases a
    simp [show ∀ x y : Totals,
        x + y = ⟨x.jobs + y.jobs, x.time + y.time, x.time_adj + y.time_adj⟩
      from fun x y => rfl, show (0 : Totals) = ⟨0, 0, 0⟩ from rfl]
  add_zero a := by
    cases a
    simp [show ∀ x y : Totals,
        x + y = ⟨x.jobs + y.jobs, x.time + y.time, x.time_adj + y.time_adj⟩
      from fun x y => rfl, show (0 : Totals) = ⟨0, 0, 0⟩ from rfl]
  add_comm a b := by
    simp [show ∀ x y : Totals,
        x + y = ⟨x.jobs + y.jobs, x.time + y.time, x.time_adj + y.time_adj⟩
      from fun x y => rfl, Nat.add_comm]
  nsmul := nsmulRec

/-- One accounting record, restricted to the attributes the embedded code
reads.  `owner` is the job's submitting user and `equip_owner` the equipment
owner added by `record_modify` (classification itself is out of scope, spec §3).

Modelled from the spec: the `sge` helper module is not under `src/`, so the
results of `sge.category_resource`/`sge.number`/`sge.node_type` on the record's
category string are carried as already-parsed fields (spec §4.2, §4.3):
`node_type` is the `(num_pe, memory-in-bytes)` pair of the category's node-type
descriptor (absent when the category carries no usable node type; a value of
`0` stands for a falsy parse result, which the source treats like absence),
and `h_vmem` the category's memory request parsed to bytes. -/
structure JobRecord where
  owner : String
  equip_owner : String
  name : String
  category : String
  hostname : String
  ru_wallclock : Nat
  slots : Nat
  node_type : Option (Nat × Nat)
  h_vmem : Option Nat
deriving DecidableEq, Repr

/-- Modelled from the spec: `sge.number` parses human-readable magnitude
suffixes to bytes (spec §4.2, "e.g. `64G`, `3T`"); `G` is 2^30 bytes. -/
def GiB : Nat := 1073741824

/-- Modelled from the spec: `T` is 2^40 bytes. -/
def TiB : Nat := 1099511627776

/-- One entry of `backup_node_mpc`: an anchored hostname pattern (embedded as
a predicate on the hostname's characters, `re.match` semantics) and the
node's memory per core. -/
structure MpcRule where
  pat : List Char → Bool
  mpc : Nat

/-- `^h7s3b1[56]` -/
def patARC2Big : List Char → Bool
  | a :: b :: c :: d :: e :: f :: g :: _ =>
      a == 'h' && b == '7' && c == 's' && d == '3' && e == 'b' && f == '1' &&
      (g == '5' || g == '6')
  | _ => false

/-- `^h[12367]s` -/
def patARC2 : List Char → Bool
  | a :: b :: c :: _ =>
      a == 'h' && (b == '1' || b == '2' || b == '3' || b == '6' || b == '7') && c == 's'
  | _ => false

/-- `^dc[1-4]s` -/
def patARC3 : List Char → Bool
  | a :: b :: c :: d :: _ =>
      a == 'd' && b == 'c' && (c == '1' || c == '2' || c == '3' || c == '4') && d == 's'
  | _ => false

/-- `^c2s0b[0-3]n` -/
def patARC1Big : List Char → Bool
  | a :: b :: c :: d :: e :: f :: g :: _ =>
      a == 'c' && b == '2' && c == 's' && d == '0' && e == 'b' &&
      (f == '0' || f == '1' || f == '2' || f == '3') && g == 'n'
  | _ => false

/-- `^c[1-3]s` -/
def patARC1 : List Char → Bool
  | a :: b :: c :: _ =>
      a == 'c' && (b == '1' || b == '2' || b == '3') && c == 's'
  | _ => false

/-- `^smp[1-4]` -/
def patSMP : List Char → Bool
  | a :: b :: c :: d :: _ =>
      a == 's' && b == 'm' && c == 'p' && (d == '1' || d == '2' || d == '3' || d == '4')
  | _ => false

/-- `^g8s([789]|10)n` -/
def patPolarisBig : List Char → Bool
  | a :: b :: c :: d :: e :: f :: _ =>
      a == 'g' && b == '8' && c == 's' &&
      ((d == '7' || d == '8' || d == '9') && e == 'n' ||
       d == '1' && e == '0' && f == 'n')
  | [a, b, c, d, e] =>
      a == 'g' && b == '8' && c == 's' && (d == '7' || d == '8' || d == '9') && e == 'n'
  | _ => false

/-- `^g[0-9]s` -/
def patPolaris : List Char → Bool
  | a :: b :: c :: _ =>
      a == 'g' && (48 ≤ b.toNat && b.toNat ≤ 57) && c == 's'
  | _ => false

/-- `^hb01s` -/
def patMARC1a : List Char → Bool
  | a :: b :: c :: d :: e :: _ =>
      a == 'h' && b == 'b' && c == '0' && d == '1' && e == 's'
  | _ => false

/-- `^hb02n` -/
def patMARC1b : List Char → Bool
  | a :: b :: c :: d :: e :: _ =>
      a == 'h' && b == 'b' && c == '0' && d == '2' && e == 'n'
  | _ => false

/-- The `backup_node_mpc` table (accounting.py lines 59-70), in declared
order, with the `sge.number(..) // n` memory-per-core expressions. -/
def backup_node_mpc : List MpcRule := [
  ⟨patARC2Big,   64 * GiB / 24⟩,
  ⟨patARC2,      24 * GiB / 12⟩,
  ⟨patARC3,     128 * GiB / 24⟩,
  ⟨patARC1Big,   24 * GiB / 8⟩,
  ⟨patARC1,      12 * GiB / 8⟩,
  ⟨patSMP,      128 * GiB / 16⟩,
  ⟨patPolarisBig, 256 * GiB / 16⟩,
  ⟨patPolaris,   64 * GiB / 16⟩,
  ⟨patMARC1a,   256 * GiB / 20⟩,
  ⟨patMARC1b,     3 * TiB / 48⟩]

/-- The backup loop of `core_hours` (accounting.py lines 438-441): every rule
is tried and a match overwrites `mem_core`; there is no `break`, so the last
matching rule's value survives.  `init` is the value of `mem_core` on entry
(`none` for Python `None`, `some 0` for a falsy `0` from the primary path). -/
def backupLoop (h : List Char) (init : Option Nat) : Option Nat :=
  backup_node_mpc.foldl (fun mc b => if b.pat h then some b.mpc else mc) init

/-- Modelled from the spec: the fallback path as §4.2 states it — rules tried
in declared order, the *first* matching rule's `memory_per_core` returned,
`none` when no rule matches. -/
def backup_first_match (h : List Char) : Option Nat :=
  match backup_node_mpc.find? (fun b => b.pat h) with
  | some b => some b.mpc
  | none => none

/-- The `mem_core` resolution of `core_hours` (accounting.py lines 425-441):
primary path from the category's node type (`memory // cores` when both are
truthy), then the hostname backup loop whenever `mem_core` is falsy
(`None` or `0`). -/
def mem_core_of (r : JobRecord) : Option Nat :=
  let primary : Option Nat :=
    match r.node_type with
    | some (cores, memory) =>
        if cores ≠ 0 ∧ memory ≠ 0 then some (memory / cores) else none
    | none => none
  if primary = none ∨ primary = some 0 then backupLoop r.hostname.data primary
  else primary

/-- `math.ceil(q / m)` for the positive integers the source divides
(the source divides floats; exact for the magnitudes concerned). -/
def ceilDiv (q m : Nat) : Nat := (q + m - 1) / m

/-- Result of `core_hours`: the `(time, time_adj)` pair plus the diagnostic
warnings written to stderr, each identifying the job's name and category. -/
structure CHResult where
  time : Nat
  time_adj : Nat
  warnings : List (String × String)
deriving DecidableEq, Repr

/-- `core_hours` (accounting.py lines 418-454).  `none` embeds the
`ZeroDivisionError` raised when `mem_req` is present and `mem_core` resolved
to the integer `0` (primary path computed `memory // cores = 0` and no backup
rule matched). -/
def core_hours (r : JobRecord) : Option CHResult :=
  let time := r.ru_wallclock * r.slots
  match r.h_vmem, mem_core_of r with
  | some q, some m =>
      if m = 0 then none
      else some ⟨time, time * ceilDiv q m, []⟩
  | _, _ => some ⟨time, time, [(r.name, r.category)]⟩

/-! ### Date handling

`parse_startend` / `parse_date` / `next_datetime` / `datetime_defaults`
(accounting.py lines 461-532), over a UTC proleptic-Gregorian calendar model
of Python's `datetime` (the source pins `tzinfo=pytz.timezone('UTC')` and
reads epoch seconds with `strftime('%s')`). -/

/-- Gregorian leap year. -/
def isLeap (y : Nat) : Prop := y % 4 = 0 ∧ (y % 100 ≠ 0 ∨ y % 400 = 0)

instance (y : Nat) : Decidable (isLeap y) :=
  inferInstanceAs (Decidable (y % 4 = 0 ∧ (y % 100 ≠ 0 ∨ y % 400 = 0)))

/-- Days in month `m` of year `y` (Python `datetime` validation bound). -/
def daysInMonth (y m : Nat) : Nat :=
  if m = 2 then (if isLeap y then 29 else 28)
  else if m = 4 ∨ m = 6 ∨ m = 9 ∨ m = 11 then 30
  else 31

/-- Days from 1 Jan of year 1 to 1 Jan of year `y` (proleptic Gregorian). -/
def daysBeforeYear (y : Nat) : Nat :=
  365 * (y - 1) + (y - 1) / 4 + (y - 1) / 400 - (y - 1) / 100

/-- Days from 1 Jan to 1 `m` within a year of year `y`. -/
def daysBeforeMonth (y m : Nat) : Nat :=
  (if m ≤ 1 then 0 else if m = 2 then 31 else if m = 3 then 59 else
   if m = 4 then 90 else if m = 5 then 120 else if m = 6 then 151 else
   if m = 7 then 181 else if m = 8 then 212 else if m = 9 then 243 else
   if m = 10 then 273 else if m = 11 then 304 else 334)
  + (if 3 ≤ m ∧ isLeap y then 1 else 0)

/-- Day number (days since 1 Jan of year 1) of the date `y-m-d`. -/
def dayNumber (y m d : Nat) : Nat := daysBeforeYear y + daysBeforeMonth y m + (d - 1)

/-- Epoch seconds of the UTC instant `y-m-d h:mi:s`
(day number of 1970-01-01 is 719162). -/
def epochOf (y m d h mi s : Nat) : Int :=
  ((dayNumber y m d : Int) - 719162) * 86400 + h * 3600 + mi * 60 + s

/-- The argument validation of the `datetime.datetime` constructor:
`MINYEAR <= year <= MAXYEAR` and calendar-valid month/day, in-range time. -/
def validDT (y m d h mi s : Nat) : Prop :=
  1 ≤ y ∧ y ≤ 9999 ∧ 1 ≤ m ∧ m ≤ 12 ∧ 1 ≤ d ∧ d ≤ daysInMonth y m ∧
  h ≤ 23 ∧ mi ≤ 59 ∧ s ≤ 59

instance (y m d h mi s : Nat) : Decidable (validDT y m d h mi s) := by
  unfold validDT; infer_instance

/-- `datetime.datetime(y, m, d, h, mi, s, tzinfo=UTC)` followed by
`int(.. .strftime('%s'))`: `none` embeds the constructor's `ValueError`. -/
def mkdt (y m d h mi s : Nat) : Option Int :=
  if validDT y m d h mi s then some (epochOf y m d h mi s) else none

/-- `datetime.datetime(*args, tzinfo=UTC)` on an argument tuple of length
3 to 6 (hour/minute/second default to 0); other lengths raise (`none`). -/
def mkdtList : List Nat → Option Int
  | [y, m, d] => mkdt y m d 0 0 0
  | [y, m, d, h] => mkdt y m d h 0 0
  | [y, m, d, h, mi] => mkdt y m d h mi 0
  | [y, m, d, h, mi, s] => mkdt y m d h mi s
  | _ => none

/-- Epoch of the largest value `datetime` can represent,
`9999-12-31 23:59:59`; adding a `timedelta` beyond it raises. -/
def epochMax : Int := epochOf 9999 12 31 23 59 59

/-- `t1 + datetime.timedelta(..)` on a UTC datetime, as epoch arithmetic;
`none` embeds the `OverflowError` past `datetime.max`. -/
def addSec (e : Int) (k : Nat) : Option Int :=
  if e + k ≤ epochMax then some (e + k) else none

/-- `max_date = "40000101"` (accounting.py line 55). -/
def max_date : String := "40000101"

/-- character of a decimal digit (`\d`). -/
def isDig (c : Char) : Bool := 48 ≤ c.toNat && c.toNat ≤ 57

/-- Numeric value of a digit string. -/
def digitsToNat (cs : List Char) : Nat :=
  cs.foldl (fun a c => 10 * a + (c.toNat - 48)) 0

/-- The chunking of `datetime_def`'s groups: 4 digits of year followed by
2-digit components. -/
def chunk42 : List Char → List Nat
  | a :: b :: c :: d :: rest => digitsToNat [a, b, c, d] :: chunk2 rest
  | _ => []
where
  chunk2 : List Char → List Nat
    | a :: b :: rest => digitsToNat [a, b] :: chunk2 rest
    | _ => []

/-- `parse_date` (accounting.py lines 492-500) on the characters of the date
string: the string must match
`^(\d{4})(\d{2})?(\d{2})?(\d{2})?(\d{2})?(\d{2})?$`, i.e. be all digits with
length 4, 6, 8, 10, 12 or 14; the present groups are returned as integers.
`none` is Python's `None` return (which every caller then crashes on). -/
def parse_date (cs : List Char) : Option (List Nat) :=
  if cs.all isDig ∧ (cs.length = 4 ∨ cs.length = 6 ∨ cs.length = 8 ∨
      cs.length = 10 ∨ cs.length = 12 ∨ cs.length = 14) then
    some (chunk42 cs)
  else none

/-- `datetime_defaults` (accounting.py lines 524-532): pad the component list
to at least (year, month, day) with 1970, 1, 1. -/
def datetime_defaults (t : List Nat) : List Nat :=
  match t with
  | [] => [1970, 1, 1]
  | [y] => [y, 1, 1]
  | [y, m] => [y, m, 1]
  | l => l

/-- The month after `(y, m)` (what `relativedelta(months=1)` does to a
day-1 date). -/
def rollMonth (y m : Nat) : Nat × Nat := if m = 12 then (y + 1, 1) else (y, m + 1)

/-- `next_datetime` (accounting.py lines 506-518): one unit past the given
components at their precision.  The datetime `t1` is built (and validated)
first.  The `case` dict literal then evaluates ALL six stepped datetimes
eagerly before `.get` selects one, so any of the six raising aborts every
precision: `t1 + relativedelta(years=1)` raises (`ValueError`, year 10000)
exactly when `t1.year = 9999`, and for `t1.year <= 9998` none of the six
entries can leave the `datetime` range (`relativedelta` clamps the day
within a valid year; the `timedelta` sums stay below `datetime.max`).
Hence the embedded guard `if y = 9999 then none`; the selected branch then
steps the year/month by calendar rollover or adds the `timedelta` seconds. -/
def next_datetime (t : List Nat) : Option Int :=
  match t with
  | [y] => do
      let _ ← mkdt y 1 1 0 0 0
      if y = 9999 then none
      else mkdt (y + 1) 1 1 0 0 0
  | [y, m] => do
      let _ ← mkdt y m 1 0 0 0
      if y = 9999 then none
      else mkdt (rollMonth y m).1 (rollMonth y m).2 1 0 0 0
  | [y, m, d] => do
      let e ← mkdt y m d 0 0 0
      if y = 9999 then none
      else addSec e 86400
  | [y, m, d, h] => do
      let e ← mkdt y m d h 0 0
      if y = 9999 then none
      else addSec e 3600
  | [y, m, d, h, mi] => do
      let e ← mkdt y m d h mi 0
      if y = 9999 then none
      else addSec e 60
  | [y, m, d, h, mi, s] => do
      let e ← mkdt y m d h mi s
      if y = 9999 then none
      else addSec e 1
  | _ => none

/-- Split the character list at the first `-`; the remainder (when a `-`
exists) is everything after it. -/
def splitDash : List Char → List Char × Option (List Char)
  | [] => ([], none)
  | c :: cs =>
      if c = '-' then ([], some cs)
      else
        let p := splitDash cs
        (c :: p.1, p.2)

/-- Match of `time_startend_def = ^(\d+)?(-(\d+)?)?$` (accounting.py line
45): group 1 (digits before a `-`), whether group 2 (the `-...` part) is
present, and group 3 (digits after the `-`).  Absent or empty-by-the-grammar
groups are `none`; `none` overall means no match. -/
def rangeMatch (s : String) : Option (Option (List Char) × Bool × Option (List Char)) :=
  let p := splitDash s.data
  match p.2 with
  | none =>
      if p.1.all isDig then some ((if p.1 = [] then none else some p.1), false, none)
      else none
  | some b =>
      if p.1.all isDig ∧ b.all isDig then
        some ((if p.1 = [] then none else some p.1), true,
              (if b = [] then none else some b))
      else none

/-- The start bound of `parse_startend` (lines 471-477): absent group 1
keeps `start = 0`; otherwise `datetime(*datetime_defaults(*parse_date(g1)))`
(a failed `parse_date` makes the `*None` unpacking raise). -/
def startCompute (g1 : Option (List Char)) : Option Int :=
  match g1 with
  | none => some 0
  | some d =>
      match parse_date d with
      | none => none
      | some comps => mkdtList (datetime_defaults comps)

/-- The end-date selection of line 480:
`r.group(3) or (r.group(2) and max_date) or r.group(1)`. -/
def endStrSel (g1 : Option (List Char)) (dash : Bool) (g3 : Option (List Char)) :
    List Char :=
  match g3 with
  | some d => d
  | none => if dash then max_date.data else g1.getD []

/-- The end bound of `parse_startend` (lines 479-484):
`next_datetime(*parse_date(end_string))`. -/
def endCompute (g1 : Option (List Char)) (dash : Bool) (g3 : Option (List Char)) :
    Option Int :=
  match parse_date (endStrSel g1 dash g3) with
  | none => none
  | some comps => next_datetime comps

/-- The default end bound computed at the top of `parse_startend` (lines
463-466): `datetime(*parse_date(max_date))`, i.e. the epoch of 4000-01-01. -/
def defaultEnd : Int := epochOf 4000 1 1 0 0 0

/-- `parse_startend` (accounting.py lines 461-486).  The argument is
`args.date` (`none` when `--date` was not given; the empty string is falsy
too).  A spec that fails the range grammar is silently skipped, returning
the defaults; `none` embeds an uncaught exception from the date handling. -/
def parse_startend : Option String → Option (Int × Int)
  | none => some (0, defaultEnd)
  | some s =>
      if s.data = [] then some (0, defaultEnd)
      else
        match rangeMatch s with
        | none => some (0, defaultEnd)
        | some (g1, dash, g3) => do
            let st ← startCompute g1
            let en ← endCompute g1 dash g3
            pure (st, en)

/-! ### Aggregation

The dict-of-dicts fold of `main` (accounting.py lines 152-192): raw data per
`owners[owner][user]`, the per-user summary `users`, and the per-owner
`owner_summaries`.  Python dicts keep insertion order, so they are embedded
as association lists grown at the end; adding to an entry updates the first
(unique) occurrence of its key. -/

/-- `owners[owner]`: one owner's per-user cells, in insertion order. -/
abbrev UserMap := List (String × Totals)

/-- `owners`: the outer dict, in insertion order. -/
abbrev Owners := List (String × UserMap)

/-- Insert-if-absent (with zero totals) then add in place — lines 162-170
restricted to one inner dict. -/
def bumpUser (um : UserMap) (u : String) (t : Totals) : UserMap :=
  match um with
  | [] => [(u, (0 : Totals) + t)]
  | (u', t') :: rest =>
      if u' = u then (u', t' + t) :: rest else (u', t') :: bumpUser rest u t

/-- Lines 158-170: ensure `owners[owner]` and `owners[owner][user]` exist,
then add the record's totals into that cell. -/
def bumpOwner (os : Owners) (o u : String) (t : Totals) : Owners :=
  match os with
  | [] => [(o, bumpUser [] u t)]
  | (o', um) :: rest =>
      if o' = o then (o', bumpUser um u t) :: rest else (o', um) :: bumpOwner rest o u t

/-- The record loop of `main` (lines 153-170): for each record in order,
compute `core_hours` and add `{jobs: 1, time: t[0], time_adj: t[1]}` under
`(equip_owner, owner)`.  `none` propagates an exception from `core_hours`. -/
def foldOwners (os : Owners) : List JobRecord → Option Owners
  | [] => some os
  | r :: rs =>
      match core_hours r with
      | none => none
      | some c => foldOwners (bumpOwner os r.equip_owner r.owner ⟨1, c.time, c.time_adj⟩) rs

/-- The totals one record adds into the maps (jobs 1, the two times). -/
def contribT (r : JobRecord) : Totals :=
  match core_hours r with
  | some c => ⟨1, c.time, c.time_adj⟩
  | none => 0

/-- Dict lookup with zero default (a missing key contributes nothing). -/
def lookupT : UserMap → String → Totals
  | [], _ => 0
  | (u', t) :: rest, u => if u' = u then t else lookupT rest u

/-- Lookup of an owner's inner dict (empty when absent). -/
def lookupO : Owners → String → UserMap
  | [], _ => []
  | (o', um) :: rest, o => if o' = o then um else lookupO rest o

/-- The `(owner, user)` cell of the aggregation state. -/
def lookupOU (os : Owners) (o u : String) : Totals := lookupT (lookupO os o) u

/-- The per-user summary loop of `main` (lines 173-181): every
`owners[owner][user]` entry is folded into `users[user]`. -/
def usersOf (os : Owners) : UserMap :=
  os.foldl (fun us p => p.2.foldl (fun us q => bumpUser us q.1 q.2) us) []

/-- One row of `owner_summaries` (lines 186-192). -/
structure Summary where
  users : Nat
  jobs : Nat
  time : Nat
  time_adj : Nat
deriving DecidableEq, Repr

/-- The summary fold over one owner's users (lines 186-192). -/
def summaryOf (um : UserMap) : Summary :=
  um.foldl (fun s q => ⟨s.users + 1, s.jobs + q.2.jobs, s.time + q.2.time,
    s.time_adj + q.2.time_adj⟩) ⟨0, 0, 0, 0⟩

/-- `owner_summaries` (lines 184-192), one summary per owner. -/
def summariesOf (os : Owners) : List (String × Summary) :=
  os.map (fun p => (p.1, summaryOf p.2))

/-- Total job count recorded in the two-level state. -/
def sumJobsU (um : UserMap) : Nat := (um.map (fun q => q.2.jobs)).sum

/-- Total job count over all owners. -/
def totalJobs (os : Owners) : Nat := (os.map (fun p => sumJobsU p.2)).sum

/-- Sum of `job_count` over the owner summaries. -/
def sumSummaryJobs (ss : List (String × Summary)) : Nat :=
  (ss.map (fun p => p.2.jobs)).sum

/-- The record key the aggregation cell `(o, u)` collects. -/
def keyMatch (o u : String) (r : JobRecord) : Bool :=
  r.equip_owner == o && r.owner == u

/-- The key list of an inner dict. -/
def keysU (um : UserMap) : List String := um.map Prod.fst

/-- Every inner dict of the state has distinct user keys. -/
def NodupInner (os : Owners) : Prop := ∀ p ∈ os, (keysU p.2).Nodup

/-! ### Concrete records (spec §8 examples and test inputs) -/

/-- The record of spec §8: wallclock 3600 s, 4 slots, a node with
16G per core (4 cores, 64G), and a 40G memory request. -/
def exampleRecord : JobRecord where
  owner := "user1"
  equip_owner := "ENG"
  name := "job1"
  category := "-l h_vmem=40G,node_type=16core-64G"
  hostname := "dc1s0b1"
  ru_wallclock := 3600
  slots := 4
  node_type := some (4, 64 * GiB)
  h_vmem := some (40 * GiB)

/-- `exampleRecord` with a zero-byte memory request (`h_vmem=0`). -/
def zeroReqRecord : JobRecord :=
  { exampleRecord with h_vmem := some 0, category := "-l h_vmem=0,node_type=16core-64G" }

/-- A record with no memory request and no resolvable node type. -/
def warnRecord : JobRecord where
  owner := "user3"
  equip_owner := "ENV"
  name := "job3"
  category := "-l nodes=1"
  hostname := "unknown1"
  ru_wallclock := 50
  slots := 2
  node_type := none
  h_vmem := none

/-- `exampleRecord`'s user appearing under a second equipment owner. -/
def crossRecord : JobRecord := { exampleRecord with equip_owner := "MAPS" }

/-- A record whose hostname `h7s3b15...` matches both the first backup rule
`^h7s3b1[56]` and the second `^h[12367]s`, with no node type metadata. -/
def h7Record : JobRecord where
  owner := "user2"
  equip_owner := "MAPS"
  name := "job2"
  category := "-l h_vmem=4G"
  hostname := "h7s3b15.arc2.leeds.ac.uk"
  ru_wallclock := 100
  slots := 1
  node_type := none
  h_vmem := some (4 * GiB)

/-! ### Aggregation lemmas -/

theorem Totals.add_def (a b : Totals) :
    a + b = ⟨a.jobs + b.jobs, a.time + b.time, a.time_adj + b.time_adj⟩ := rfl

theorem Totals.zero_def : (0 : Totals) = ⟨0, 0, 0⟩ := rfl

theorem lookupT_bumpUser (um : UserMap) (u v : String) (t : Totals) :
    lookupT (bumpUser um u t) v = lookupT um v + (if u = v then t else 0) := by
  induction um with
  | nil =>
      by_cases h : u = v <;> simp [bumpUser, lookupT, h]
  | cons p rest ih =>
      obtain ⟨u', t'⟩ := p
      simp only [bumpUser]
      by_cases h1 : u' = u
      · simp only [if_pos h1, lookupT]
        by_cases h2 : u' = v
        · have huv : u = v := h1 ▸ h2
          simp [h2, huv]
        · have huv : ¬ u = v := fun hh => h2 (h1.trans hh)
          simp [h2, huv]
      · simp only [if_neg h1, lookupT]
        by_cases h2 : u' = v
        · have huv : ¬ u = v := fun hh => h1 (h2.trans hh.symm)
          simp [h2, huv]
        · simp [h2, ih]

theorem lookupO_bumpOwner (os : Owners) (o o' u : String) (t : Totals) :
    lookupO (bumpOwner os o u t) o' =
      if o = o' then bumpUser (lookupO os o) u t else lookupO os o' := by
  induction os with
  | nil =>
      by_cases h : o = o' <;> simp [bumpOwner, lookupO, h]
  | cons p rest ih =>
      obtain ⟨o'', um⟩ := p
      simp only [bumpOwner]
      by_cases h1 : o'' = o
      · simp only [if_pos h1, lookupO]
        by_cases h2 : o'' = o'
        · have hoo : o = o' := h1 ▸ h2
          simp [h2, hoo, h1]
        · have hoo : ¬ o = o' := fun hh => h2 (h1.trans hh)
          simp [h2, hoo]
      · simp only [if_neg h1, lookupO]
        by_cases h2 : o'' = o'
        · have hoo : ¬ o = o' := fun hh => h1 (h2.trans hh.symm)
          simp [h2, hoo]
        · simp [h2, ih]

theorem lookupOU_bumpOwner (os : Owners) (o o' u u' : String) (t : Totals) :
    lookupOU (bumpOwner os o u t) o' u' =
      lookupOU os o' u' + (if o = o' ∧ u = u' then t else 0) := by
  unfold lookupOU
  rw [lookupO_bumpOwner]
  by_cases h1 : o = o'
  · subst h1
    rw [if_pos rfl, lookupT_bumpUser]
    by_cases h2 : u = u' <;> simp [h2]
  · simp [h1]

theorem foldOwners_lookup (rs : List JobRecord) (os os' : Owners)
    (h : foldOwners os rs = some os') (o u : String) :
    lookupOU os' o u =
      lookupOU os o u + ((rs.filter (keyMatch o u)).map contribT).sum := by
  induction rs generalizing os with
  | nil =>
      simp only [foldOwners, Option.some_inj] at h
      subst h; simp
  | cons r rest ih =>
      simp only [foldOwners] at h
      cases hc : core_hours r with
      | none => rw [hc] at h; exact absurd h (by simp)
      | some c =>
          rw [hc] at h
          have hcon : contribT r = ⟨1, c.time, c.time_adj⟩ := by
            simp [contribT, hc]
          by_cases hk : r.equip_owner = o ∧ r.owner = u
          · have hkb : keyMatch o u r = true := by
              simp [keyMatch, hk.1, hk.2]
            rw [ih _ h, lookupOU_bumpOwner, if_pos hk]
            simp only [List.filter_cons, hkb, if_true, List.map_cons,
              List.sum_cons, hcon]
            rw [add_assoc]
          · have hkb : keyMatch o u r = false := by
              unfold keyMatch
              by_cases h1 : r.equip_owner = o
              · by_cases h2 : r.owner = u
                · exact absurd ⟨h1, h2⟩ hk
                · simp [h2]
              · simp [h1]
            rw [ih _ h, lookupOU_bumpOwner, if_neg hk]
            simp only [List.filter_cons, hkb]
            simp

theorem foldOwners_isSome (rs : List JobRecord) (os os' : Owners)
    (h : foldOwners os rs = some os') :
    ∀ r ∈ rs, (core_hours r).isSome := by
  induction rs generalizing os with
  | nil => intro r hr; cases hr
  | cons r rest ih =>
      intro r' hr'
      simp only [foldOwners] at h
      cases hc : core_hours r with
      | none => rw [hc] at h; exact absurd h (by simp)
      | some c =>
          rw [hc] at h
          rcases List.mem_cons.mp hr' with h1 | h1
          · subst h1; simp [hc]
          · exact ih _ h _ h1

theorem foldOwners_total (rs : List JobRecord) (os : Owners)
    (h : ∀ r ∈ rs, (core_hours r).isSome) :
    ∃ os', foldOwners os rs = some os' := by
  induction rs generalizing os with
  | nil => exact ⟨os, rfl⟩
  | cons r rest ih =>
      cases hc : core_hours r with
      | none =>
          have := h r (List.mem_cons_self r rest)
          rw [hc] at this; cases this
      | some c =>
          obtain ⟨os', hos'⟩ :=
            ih (bumpOwner os r.equip_owner r.owner ⟨1, c.time, c.time_adj⟩)
              (fun r' hr' => h r' (List.mem_cons_of_mem r hr'))
          exact ⟨os', by simp only [foldOwners, hc]; exact hos'⟩

theorem lookupOU_nil (o u : String) : lookupOU [] o u = 0 := rfl

theorem sumJobsU_bumpUser (um : UserMap) (u : String) (t : Totals) :
    sumJobsU (bumpUser um u t) = sumJobsU um + t.jobs := by
  induction um with
  | nil => simp [bumpUser, sumJobsU, Totals.add_def, Totals.zero_def]
  | cons p rest ih =>
      obtain ⟨u', t'⟩ := p
      by_cases h : u' = u
      · simp only [bumpUser, if_pos h, sumJobsU, List.map_cons, List.sum_cons,
          Totals.add_def]
        simp only [sumJobsU] at *
        omega
      · simp only [bumpUser, if_neg h, sumJobsU, List.map_cons, List.sum_cons]
        simp only [sumJobsU] at ih
        omega

theorem totalJobs_bumpOwner (os : Owners) (o u : String) (t : Totals) :
    totalJobs (bumpOwner os o u t) = totalJobs os + t.jobs := by
  induction os with
  | nil =>
      simp [bumpOwner, totalJobs, sumJobsU, bumpUser, Totals.add_def,
        Totals.zero_def]
  | cons p rest ih =>
      obtain ⟨o', um⟩ := p
      by_cases h : o' = o
      · simp only [bumpOwner, if_pos h, totalJobs, List.map_cons, List.sum_cons,
          sumJobsU_bumpUser]
        simp only [totalJobs] at *
        omega
      · simp only [bumpOwner, if_neg h, totalJobs, List.map_cons, List.sum_cons]
        simp only [totalJobs] at ih
        omega

theorem foldOwners_totalJobs (rs : List JobRecord) (os os' : Owners)
    (h : foldOwners os rs = some os') :
    totalJobs os' = totalJobs os + rs.length := by
  induction rs generalizing os with
  | nil =>
      simp only [foldOwners, Option.some_inj] at h
      subst h; simp
  | cons r rest ih =>
      simp only [foldOwners] at h
      cases hc : core_hours r with
      | none => rw [hc] at h; exact absurd h (by simp)
      | some c =>
          rw [hc] at h
          rw [ih _ h, totalJobs_bumpOwner]
          simp [Nat.add_comm, Nat.add_assoc, Nat.add_left_comm]

theorem mem_keysU_bumpUser (um : UserMap) (u v : String) (t : Totals) :
    v ∈ keysU (bumpUser um u t) ↔ v ∈ keysU um ∨ v = u := by
  induction um with
  | nil => simp [bumpUser, keysU]
  | cons p rest ih =>
      obtain ⟨u', t'⟩ := p
      by_cases h : u' = u
      · simp only [bumpUser, if_pos h, keysU, List.map_cons, List.mem_cons]
        subst h
        constructor
        · rintro (h1 | h1)
          · exact Or.inl (Or.inl h1)
          · exact Or.inl (Or.inr h1)
        · rintro ((h1 | h1) | h1)
          · exact Or.inl h1
          · exact Or.inr h1
          · exact Or.inl h1
      · simp only [bumpUser, if_neg h, keysU, List.map_cons, List.mem_cons]
        simp only [keysU] at ih
        rw [ih]
        tauto

theorem nodupKeys_bumpUser (um : UserMap) (u : String) (t : Totals)
    (h : (keysU um).Nodup) : (keysU (bumpUser um u t)).Nodup := by
  induction um with
  | nil => simp [bumpUser, keysU]
  | cons p rest ih =>
      obtain ⟨u', t'⟩ := p
      simp only [keysU, List.map_cons, List.nodup_cons] at h
      by_cases h1 : u' = u
      · simp only [bumpUser, if_pos h1, keysU, List.map_cons, List.nodup_cons]
        exact ⟨by simpa [keysU] using h.1, by simpa [keysU] using h.2⟩
      · simp only [bumpUser, if_neg h1, keysU, List.map_cons, List.nodup_cons]
        constructor
        · intro hmem
          rcases (mem_keysU_bumpUser rest u u' t).mp (by simpa [keysU] using hmem) with
            h2 | h2
          · exact h.1 (by simpa [keysU] using h2)
          · exact h1 h2
        · exact ih (by simpa [keysU] using h.2)

theorem lookupT_eq_zero (um : UserMap) (u : String) (h : u ∉ keysU um) :
    lookupT um u = 0 := by
  induction um with
  | nil => rfl
  | cons p rest ih =>
      obtain ⟨u', t'⟩ := p
      simp only [keysU, List.map_cons, List.mem_cons] at h
      push_neg at h
      have hne : ¬ u' = u := fun hh => h.1 hh.symm
      simp only [lookupT, if_neg hne]
      exact ih (by simpa [keysU] using h.2)

theorem lookupT_innerFold (um us : UserMap) (u : String)
    (h : (keysU um).Nodup) :
    lookupT (um.foldl (fun us q => bumpUser us q.1 q.2) us) u =
      lookupT us u + lookupT um u := by
  induction um generalizing us with
  | nil => simp [lookupT]
  | cons p rest ih =>
      obtain ⟨u', t'⟩ := p
      simp only [keysU, List.map_cons, List.nodup_cons] at h
      simp only [List.foldl_cons]
      rw [ih (bumpUser us u' t') (by simpa [keysU] using h.2), lookupT_bumpUser]
      simp only [lookupT]
      by_cases h2 : u' = u
      · rw [if_pos h2, if_pos h2]
        have : lookupT rest u = 0 :=
          lookupT_eq_zero rest u (by simpa [keysU, h2] using h.1)
        rw [this, add_zero]
      · rw [if_neg h2, if_neg h2, add_zero]

theorem lookupT_usersFold (os : Owners) (us : UserMap) (u : String)
    (h : ∀ p ∈ os, (keysU p.2).Nodup) :
    lookupT (os.foldl (fun us p => p.2.foldl (fun us q => bumpUser us q.1 q.2) us) us) u
      = lookupT us u + (os.map (fun p => lookupT p.2 u)).sum := by
  induction os generalizing us with
  | nil => simp
  | cons p rest ih =>
      simp only [List.foldl_cons, List.map_cons, List.sum_cons]
      rw [ih _ (fun q hq => h q (List.mem_cons_of_mem p hq)),
        lookupT_innerFold p.2 us u (h p (List.mem_cons_self p rest)), add_assoc]

theorem lookupT_usersOf (os : Owners) (u : String)
    (h : ∀ p ∈ os, (keysU p.2).Nodup) :
    lookupT (usersOf os) u = (os.map (fun p => lookupT p.2 u)).sum := by
  unfold usersOf
  rw [lookupT_usersFold os [] u h]
  simp [lookupT]

theorem sumJobsU_innerFold (um us : UserMap) :
    sumJobsU (um.foldl (fun us q => bumpUser us q.1 q.2) us) =
      sumJobsU us + sumJobsU um := by
  induction um generalizing us with
  | nil => simp [sumJobsU]
  | cons p rest ih =>
      simp only [List.foldl_cons]
      rw [ih (bumpUser us p.1 p.2), sumJobsU_bumpUser]
      simp only [sumJobsU, List.map_cons, List.sum_cons]
      omega

theorem sumJobsU_usersOf (os : Owners) : sumJobsU (usersOf os) = totalJobs os := by
  have key : ∀ (os : Owners) (us : UserMap),
      sumJobsU (os.foldl (fun us p => p.2.foldl (fun us q => bumpUser us q.1 q.2) us) us)
        = sumJobsU us + totalJobs os := by
    intro os
    induction os with
    | nil => intro us; simp [totalJobs, sumJobsU]
    | cons p rest ih =>
        intro us
        simp only [List.foldl_cons, totalJobs, List.map_cons, List.sum_cons]
        rw [ih, sumJobsU_innerFold]
        simp only [totalJobs]
        omega
  unfold usersOf
  rw [key os []]
  simp [sumJobsU]

theorem summaryOf_jobs (um : UserMap) : (summaryOf um).jobs = sumJobsU um := by
  have key : ∀ (um : UserMap) (s : Summary),
      (um.foldl (fun s q => Summary.mk (s.users + 1) (s.jobs + q.2.jobs)
        (s.time + q.2.time) (s.time_adj + q.2.time_adj)) s).jobs
        = s.jobs + sumJobsU um := by
    intro um
    induction um with
    | nil => intro s; simp [sumJobsU]
    | cons p rest ih =>
        intro s
        simp only [List.foldl_cons, sumJobsU, List.map_cons, List.sum_cons]
        rw [ih]
        simp only [sumJobsU]
        omega
  unfold summaryOf
  rw [key um ⟨0, 0, 0, 0⟩]
  simp

theorem sumSummaryJobs_summariesOf (os : Owners) :
    sumSummaryJobs (summariesOf os) = totalJobs os := by
  induction os with
  | nil => rfl
  | cons p rest ih =>
      simp only [summariesOf, sumSummaryJobs, totalJobs, List.map_cons,
        List.map_map, List.sum_cons] at ih ⊢
      rw [summaryOf_jobs, ih]

theorem nodupInner_bumpOwner (os : Owners) (o u : String) (t : Totals)
    (h : NodupInner os) : NodupInner (bumpOwner os o u t) := by
  induction os with
  | nil =>
      intro p hp
      simp only [bumpOwner, List.mem_singleton] at hp
      subst hp
      simp [bumpUser, keysU]
  | cons q rest ih =>
      obtain ⟨o', um⟩ := q
      by_cases h1 : o' = o
      · simp only [bumpOwner, if_pos h1]
        intro p hp
        rcases List.mem_cons.mp hp with h2 | h2
        · subst h2
          exact nodupKeys_bumpUser um u t (h ⟨o', um⟩ (List.mem_cons_self _ _))
        · exact h p (List.mem_cons_of_mem _ h2)
      · simp only [bumpOwner, if_neg h1]
        intro p hp
        rcases List.mem_cons.mp hp with h2 | h2
        · subst h2
          exact h ⟨o', um⟩ (List.mem_cons_self _ _)
        · exact ih (fun q hq => h q (List.mem_cons_of_mem _ hq)) p h2

theorem nodupInner_foldOwners (rs : List JobRecord) (os os' : Owners)
    (h : foldOwners os rs = some os') (hn : NodupInner os) : NodupInner os' := by
  induction rs generalizing os with
  | nil =>
      simp only [foldOwners, Option.some_inj] at h
      subst h; exact hn
  | cons r rest ih =>
      simp only [foldOwners] at h
      cases hc : core_hours r with
      | none => rw [hc] at h; exact absurd h (by simp)
      | some c =>
          rw [hc] at h
          exact ih _ h (nodupInner_bumpOwner _ _ _ _ hn)

/-! ### Calendar and grammar lemmas -/

set_option maxHeartbeats 1000000 in
theorem daysBeforeYear_succ (y : Nat) (h : 1 ≤ y) :
    daysBeforeYear (y + 1) = daysBeforeYear y + (if isLeap y then 366 else 365) := by
  by_cases hl : isLeap y
  · rw [if_pos hl]
    unfold isLeap at hl
    unfold daysBeforeYear
    omega
  · rw [if_neg hl]
    unfold isLeap at hl
    unfold daysBeforeYear
    omega

theorem daysBeforeMonth_one (y : Nat) : daysBeforeMonth y 1 = 0 := by
  simp [daysBeforeMonth]

theorem epochOf_jan1 (y : Nat) :
    epochOf y 1 1 0 0 0 = ((daysBeforeYear y : Int) - 719162) * 86400 := by
  unfold epochOf dayNumber
  rw [daysBeforeMonth_one]
  norm_num

theorem epoch_year_span (y : Nat) (h : 1 ≤ y) :
    epochOf (y + 1) 1 1 0 0 0 - epochOf y 1 1 0 0 0 =
      (if isLeap y then 366 else 365) * 86400 := by
  rw [epochOf_jan1, epochOf_jan1, daysBeforeYear_succ y h]
  split_ifs <;> push_cast <;> ring

theorem daysInMonth_pos (y m : Nat) : 1 ≤ daysInMonth y m := by
  by_cases hl : isLeap y <;> simp [daysInMonth, hl] <;> split_ifs <;> omega

set_option maxHeartbeats 1000000 in
theorem daysBeforeMonth_lt (y m : Nat) (h1 : 1 ≤ m) (h2 : m ≤ 11) :
    daysBeforeMonth y m ≤ daysBeforeMonth y (m + 1) := by
  by_cases hl : isLeap y <;> interval_cases m <;> simp [daysBeforeMonth, hl]

set_option maxHeartbeats 1000000 in
theorem daysBeforeMonth_le (y m : Nat) (h : m ≤ 12) : daysBeforeMonth y m ≤ 335 := by
  by_cases hl : isLeap y <;> interval_cases m <;> simp [daysBeforeMonth, hl]

theorem epochOf_mono (y m d y' m' d' : Nat)
    (h : dayNumber y m d ≤ dayNumber y' m' d') :
    epochOf y m d 0 0 0 ≤ epochOf y' m' d' 0 0 0 := by
  unfold epochOf
  have : ((dayNumber y m d : Int) - 719162) ≤ ((dayNumber y' m' d' : Int) - 719162) := by
    omega
  nlinarith

theorem isDig_dash : isDig '-' = false := by decide

theorem splitDash_digits (cs : List Char) (hd : cs.all isDig = true) :
    splitDash cs = (cs, none) := by
  induction cs with
  | nil => rfl
  | cons c cs ih =>
      simp only [List.all_cons, Bool.and_eq_true] at hd
      have hne : ¬ c = '-' := by
        intro h; rw [h, isDig_dash] at hd; exact Bool.noConfusion hd.1
      simp [splitDash, hne, ih hd.2]

theorem splitDash_append_dash (ds : List Char) (hd : ds.all isDig = true) :
    splitDash (ds ++ ['-']) = (ds, some []) := by
  induction ds with
  | nil => simp [splitDash]
  | cons c cs ih =>
      simp only [List.all_cons, Bool.and_eq_true] at hd
      have hne : ¬ c = '-' := by
        intro h; rw [h, isDig_dash] at hd; exact Bool.noConfusion hd.1
      simp [splitDash, hne, ih hd.2]

theorem rangeMatch_digits (s : String) (hne : s.data ≠ []) (hd : s.data.all isDig = true) :
    rangeMatch s = some (some s.data, false, none) := by
  unfold rangeMatch
  rw [splitDash_digits s.data hd]
  simp [hd, hne]

theorem rangeMatch_open (s : String) (hne : s.data ≠ []) (hd : s.data.all isDig = true) :
    rangeMatch (s ++ "-") = some (some s.data, true, none) := by
  unfold rangeMatch
  rw [String.data_append, show ("-" : String).data = ['-'] from rfl,
    splitDash_append_dash s.data hd]
  simp [hd, hne]

theorem parse_date_facts (cs : List Char) (comps : List Nat)
    (h : parse_date cs = some comps) :
    cs.all isDig = true ∧ cs ≠ [] ∧ comps = chunk42 cs := by
  by_cases hc : cs.all isDig ∧ (cs.length = 4 ∨ cs.length = 6 ∨ cs.length = 8 ∨
      cs.length = 10 ∨ cs.length = 12 ∨ cs.length = 14)
  · refine ⟨hc.1, ?_, ?_⟩
    · intro h0
      rw [h0] at hc
      rcases hc.2 with h1 | h1 | h1 | h1 | h1 | h1 <;> simp at h1
    · rw [parse_date, if_pos hc] at h
      exact (Option.some_inj.mp h).symm
  · rw [parse_date, if_neg hc] at h
    exact Option.noConfusion h

/-- The whole bare-date path of `parse_startend` (no `-` in the spec):
both bounds are computed from the same date string. -/
theorem parse_startend_digits (s : String) (comps : List Nat)
    (h : parse_date s.data = some comps) :
    parse_startend (some s) =
      (mkdtList (datetime_defaults comps)).bind (fun st =>
        (next_datetime comps).bind (fun en => some (st, en))) := by
  obtain ⟨hd, hne, _⟩ := parse_date_facts s.data comps h
  simp only [parse_startend]
  rw [if_neg hne, rangeMatch_digits s hne hd]
  show (startCompute (some s.data)).bind
      (fun st => (endCompute (some s.data) false none).bind (fun en => some (st, en))) = _
  rw [show startCompute (some s.data) = mkdtList (datetime_defaults comps) by
        simp [startCompute, h],
      show endCompute (some s.data) false none = next_datetime comps by
        simp [endCompute, endStrSel, h]]

theorem mkdt_some (y m d h mi s : Nat) (e : Int) (hmk : mkdt y m d h mi s = some e) :
    validDT y m d h mi s ∧ e = epochOf y m d h mi s := by
  by_cases hv : validDT y m d h mi s
  · rw [mkdt, if_pos hv] at hmk
    exact ⟨hv, (Option.some_inj.mp hmk).symm⟩
  · rw [mkdt, if_neg hv] at hmk
    exact absurd hmk (by simp)

theorem addSec_some (e : Int) (k : Nat) (e' : Int) (h : addSec e k = some e') :
    e' = e + k := by
  by_cases hle : e + k ≤ epochMax
  · rw [addSec, if_pos hle] at h
    exact (Option.some_inj.mp h).symm
  · rw [addSec, if_neg hle] at h
    exact absurd h (by simp)

/-- On the bare-date path, the start bound never exceeds the end bound:
`next_datetime` strictly advances the instant at every precision. -/
theorem start_le_next (comps : List Nat) (st en : Int)
    (hst : mkdtList (datetime_defaults comps) = some st)
    (hen : next_datetime comps = some en) : st ≤ en := by
  match comps with
  | [] => simp [next_datetime] at hen
  | [y] =>
      rw [show datetime_defaults [y] = [y, 1, 1] from rfl] at hst
      rw [show mkdtList [y, 1, 1] = mkdt y 1 1 0 0 0 from rfl] at hst
      obtain ⟨hv, he⟩ := mkdt_some _ _ _ _ _ _ _ hst
      simp only [next_datetime, mkdt, if_pos hv, Option.bind] at hen
      by_cases hy9 : y = 9999
      · rw [if_pos hy9] at hen
        simp at hen
      rw [if_neg hy9] at hen
      cases hv2 : (if validDT (y + 1) 1 1 0 0 0 then
          some (epochOf (y + 1) 1 1 0 0 0) else none) with
      | none => rw [hv2] at hen; simp at hen
      | some e2 =>
          rw [hv2] at hen
          simp at hen
          obtain ⟨_, he2⟩ := mkdt_some (y+1) 1 1 0 0 0 e2 (by rw [mkdt]; exact hv2)
          subst he he2 hen
          have hspan := epoch_year_span y hv.1
          split_ifs at hspan <;> omega
  | [y, m] =>
      rw [show datetime_defaults [y, m] = [y, m, 1] from rfl] at hst
      rw [show mkdtList [y, m, 1] = mkdt y m 1 0 0 0 from rfl] at hst
      obtain ⟨hv, he⟩ := mkdt_some _ _ _ _ _ _ _ hst
      simp only [next_datetime, mkdt, if_pos hv, Option.bind] at hen
      by_cases hy9 : y = 9999
      · rw [if_pos hy9] at hen
        simp at hen
      rw [if_neg hy9] at hen
      cases hv2 : (if validDT (rollMonth y m).1 (rollMonth y m).2 1 0 0 0 then
          some (epochOf (rollMonth y m).1 (rollMonth y m).2 1 0 0 0) else none) with
      | none =>
          rw [hv2] at hen
          simp at hen
      | some e2 =>
          rw [hv2] at hen
          simp at hen
          obtain ⟨hv2', he2⟩ := mkdt_some (rollMonth y m).1 (rollMonth y m).2 1 0 0 0 e2
            (by rw [mkdt]; exact hv2)
          subst he he2 hen
          apply epochOf_mono
          unfold dayNumber
          by_cases h12 : m = 12
          · subst h12
            have hroll : rollMonth y 12 = (y + 1, 1) := by simp [rollMonth]
            simp only [hroll]
            have h1 := daysBeforeYear_succ y hv.1
            have h2 := daysBeforeMonth_le y 12 (by omega)
            have h3 := daysBeforeMonth_one (y + 1)
            split_ifs at h1 <;> omega
          · have hroll : rollMonth y m = (y, m + 1) := by rw [rollMonth, if_neg h12]
            rw [hroll]
            have h1 := daysBeforeMonth_lt y m hv.2.2.1 (by
              have := hv.2.2.2.1; omega)
            simp only
            omega
  | [y, m, d] =>
      rw [show datetime_defaults [y, m, d] = [y, m, d] from rfl] at hst
      rw [show mkdtList [y, m, d] = mkdt y m d 0 0 0 from rfl] at hst
      simp only [next_datetime, hst, Option.bind] at hen
      have hen2 : (if y = 9999 then none else addSec st 86400) = some en := hen
      by_cases hy9 : y = 9999
      · rw [if_pos hy9] at hen2
        exact absurd hen2 (by simp)
      rw [if_neg hy9] at hen2
      have := addSec_some st 86400 en hen2
      omega
  | [y, m, d, h] =>
      rw [show datetime_defaults [y, m, d, h] = [y, m, d, h] from rfl] at hst
      rw [show mkdtList [y, m, d, h] = mkdt y m d h 0 0 from rfl] at hst
      simp only [next_datetime, hst, Option.bind] at hen
      have hen2 : (if y = 9999 then none else addSec st 3600) = some en := hen
      by_cases hy9 : y = 9999
      · rw [if_pos hy9] at hen2
        exact absurd hen2 (by simp)
      rw [if_neg hy9] at hen2
      have := addSec_some st 3600 en hen2
      omega
  | [y, m, d, h, mi] =>
      rw [show datetime_defaults [y, m, d, h, mi] = [y, m, d, h, mi] from rfl] at hst
      rw [show mkdtList [y, m, d, h, mi] = mkdt y m d h mi 0 from rfl] at hst
      simp only [next_datetime, hst, Option.bind] at hen
      have hen2 : (if y = 9999 then none else addSec st 60) = some en := hen
      by_cases hy9 : y = 9999
      · rw [if_pos hy9] at hen2
        exact absurd hen2 (by simp)
      rw [if_neg hy9] at hen2
      have := addSec_some st 60 en hen2
      omega
  | [y, m, d, h, mi, s] =>
      rw [show datetime_defaults [y, m, d, h, mi, s] = [y, m, d, h, mi, s] from rfl] at hst
      rw [show mkdtList [y, m, d, h, mi, s] = mkdt y m d h mi s from rfl] at hst
      simp only [next_datetime, hst, Option.bind] at hen
      have hen2 : (if y = 9999 then none else addSec st 1) = some en := hen
      by_cases hy9 : y = 9999
      · rw [if_pos hy9] at hen2
        exact absurd hen2 (by simp)
      rw [if_neg hy9] at hen2
      have := addSec_some st 1 en hen2
      omega
  | y :: m :: d :: h :: mi :: s :: x :: rest =>
      simp [next_datetime] at hen

/-! ### Claim theorems -/

/-- C1 (counterexample): the claim "the multiplier is at least 1, so
adjusted >= raw for every such record" fails on a record whose category
carries a memory request of zero bytes: `core_hours` multiplies by
`ceil(0 / mem_core) = 0`, so `adjusted = 0 < raw = 14400`. -/
theorem c1_counterexample :
    zeroReqRecord.h_vmem = some 0 ∧ mem_core_of zeroReqRecord = some (16 * GiB) ∧
    core_hours zeroReqRecord = some ⟨14400, 0, []⟩ ∧ ¬ (14400 ≤ 0) := by
  refine ⟨rfl, by decide, by decide, by decide⟩

/-- C1 (amended): whenever the record carries a memory request and a
positive memory-per-core is resolved, `core_hours` returns
`raw = wallclock * slots` and `adjusted = raw * ceil(request / mem_core)`
with no warning; the multiplier is at least 1 (hence `adjusted >= raw`)
whenever the request is moreover positive.  In particular the spec §8
example (3600 s, 4 slots, 16G per core, 40G request) yields raw 14400,
multiplier 3, adjusted 43200. -/
theorem c1_core_hours_adjusted :
    (∀ (r : JobRecord) (q m : Nat), r.h_vmem = some q → mem_core_of r = some m →
      1 ≤ m →
      core_hours r = some ⟨r.ru_wallclock * r.slots,
        r.ru_wallclock * r.slots * ceilDiv q m, []⟩ ∧
      (1 ≤ q → 1 ≤ ceilDiv q m ∧
        r.ru_wallclock * r.slots ≤ r.ru_wallclock * r.slots * ceilDiv q m)) ∧
    core_hours exampleRecord = some ⟨14400, 43200, []⟩ ∧
    ceilDiv (40 * GiB) (16 * GiB) = 3 := by
  refine ⟨?_, by decide, by decide⟩
  intro r q m hq hm hm1
  have hm0 : ¬ m = 0 := by omega
  constructor
  · simp only [core_hours, hq, hm]
    rw [if_neg hm0]
  · intro hq1
    have h1 : 1 ≤ ceilDiv q m := by
      unfold ceilDiv
      rw [Nat.le_div_iff_mul_le (by omega : 0 < m)]
      omega
    refine ⟨h1, ?_⟩
    calc r.ru_wallclock * r.slots = r.ru_wallclock * r.slots * 1 := by omega
      _ ≤ r.ru_wallclock * r.slots * ceilDiv q m :=
          Nat.mul_le_mul_left _ h1

/-- C1 (witness for the amended theorem): instantiated at the spec §8
example record. -/
theorem c1_core_hours_adjusted_witness :
    core_hours exampleRecord = some ⟨14400, 43200, []⟩ ∧
    1 ≤ ceilDiv (40 * GiB) (16 * GiB) ∧ (14400 : Nat) ≤ 14400 * 3 := by
  have h := c1_core_hours_adjusted.1 exampleRecord (40 * GiB) (16 * GiB)
    rfl (by decide) (by decide)
  have h2 := (h.2 (by decide))
  exact ⟨h.1.trans (by decide), h2.1, by decide⟩

/-- C2 (code bug): the backup `mem_core` loop of `core_hours` has no
`break`, so on `h7s3b15...` — which matches both `^h7s3b1[56]` (64G/24
nodes) and the later `^h[12367]s` (24G/12 nodes) — the *last* matching
rule wins and the resolver returns 24G/12 = 2147483648 bytes, while the
declared first-match semantics would give 64G/24 = 2863311530 bytes. -/
theorem c2_last_match_wins :
    mem_core_of h7Record = some (24 * GiB / 12) ∧
    backup_first_match h7Record.hostname.data = some (64 * GiB / 24) ∧
    (24 * GiB / 12 : Nat) ≠ 64 * GiB / 24 ∧
    (∀ h : List Char, patARC2Big h = true → patARC2 h = true) := by
  refine ⟨by decide, by decide, by decide, ?_⟩
  intro h hp
  rcases h with _ | ⟨a, _ | ⟨b, _ | ⟨c, _ | ⟨d, _ | ⟨e, _ | ⟨f, _ | ⟨g, t⟩⟩⟩⟩⟩⟩⟩ <;>
    simp_all [patARC2Big, patARC2]

/-- C8: when the memory request is absent or no memory-per-core resolves,
`core_hours` returns `adjusted = raw` together with exactly one warning
identifying the job's name and category, and the aggregation fold still
counts the record (it proceeds on the remaining records, the job's cell
bumped by `{1, raw, raw}`). -/
theorem c8_warning_unadjusted :
    (∀ r : JobRecord, r.h_vmem = none ∨ mem_core_of r = none →
      core_hours r = some ⟨r.ru_wallclock * r.slots, r.ru_wallclock * r.slots,
        [(r.name, r.category)]⟩) ∧
    (∀ (r : JobRecord) (os : Owners) (rs : List JobRecord),
      r.h_vmem = none ∨ mem_core_of r = none →
      foldOwners os (r :: rs) =
        foldOwners (bumpOwner os r.equip_owner r.owner
          ⟨1, r.ru_wallclock * r.slots, r.ru_wallclock * r.slots⟩) rs) := by
  have key : ∀ r : JobRecord, r.h_vmem = none ∨ mem_core_of r = none →
      core_hours r = some ⟨r.ru_wallclock * r.slots, r.ru_wallclock * r.slots,
        [(r.name, r.category)]⟩ := by
    intro r h
    rcases h with hv | hmc
    · cases hmc : mem_core_of r <;> simp [core_hours, hv, hmc]
    · cases hv : r.h_vmem <;> simp [core_hours, hv, hmc]
  refine ⟨key, ?_⟩
  intro r os rs h
  simp only [foldOwners, key r h]

/-- C8 (witness): the no-request record gets one warning naming its job and
category, `adjusted = raw = 100`, and the fold continues past it. -/
theorem c8_warning_unadjusted_witness :
    core_hours warnRecord = some ⟨100, 100, [("job3", "-l nodes=1")]⟩ ∧
    foldOwners [] [warnRecord] =
      some [("ENV", [("user3", ⟨1, 100, 100⟩)])] := by
  constructor
  · exact (c8_warning_unadjusted.1 warnRecord (Or.inl rfl)).trans (by decide)
  · rw [c8_warning_unadjusted.2 warnRecord [] [] (Or.inl rfl)]
    decide

/-- C4: the aggregation fold is a monoid reduction: folding a concatenation
succeeds whenever both halves do and its cells are the pointwise `Totals`
sums of the halves' cells; folding a permutation gives pointwise equal
cells; and `Totals` under pointwise addition is an associative, commutative
monoid with the all-zeros identity. -/
theorem c4_monoid_fold :
    (∀ (rs1 rs2 : List JobRecord) (a b : Owners),
      foldOwners [] rs1 = some a → foldOwners [] rs2 = some b →
      (foldOwners [] (rs1 ++ rs2)).isSome) ∧
    (∀ (rs1 rs2 : List JobRecord) (a b c : Owners),
      foldOwners [] rs1 = some a → foldOwners [] rs2 = some b →
      foldOwners [] (rs1 ++ rs2) = some c →
      ∀ o u, lookupOU c o u = lookupOU a o u + lookupOU b o u) ∧
    (∀ (rs1 rs2 : List JobRecord) (a b : Owners), List.Perm rs1 rs2 →
      foldOwners [] rs1 = some a → foldOwners [] rs2 = some b →
      ∀ o u, lookupOU a o u = lookupOU b o u) ∧
    (∀ x y z : Totals, x + y + z = x + (y + z) ∧ x + y = y + x ∧
      x + 0 = x ∧ 0 + x = x) := by
  refine ⟨?_, ?_, ?_, ?_⟩
  · intro rs1 rs2 a b h1 h2
    obtain ⟨c, hc⟩ := foldOwners_total (rs1 ++ rs2) [] (by
      intro r hr
      rcases List.mem_append.mp hr with h | h
      · exact foldOwners_isSome rs1 [] a h1 r h
      · exact foldOwners_isSome rs2 [] b h2 r h)
    simp [hc]
  · intro rs1 rs2 a b c h1 h2 hc o u
    rw [foldOwners_lookup _ _ _ hc o u, foldOwners_lookup _ _ _ h1 o u,
      foldOwners_lookup _ _ _ h2 o u, lookupOU_nil]
    simp [List.filter_append]
  · intro rs1 rs2 a b hp h1 h2 o u
    rw [foldOwners_lookup _ _ _ h1 o u, foldOwners_lookup _ _ _ h2 o u]
    have hperm : List.Perm
        ((rs1.filter (keyMatch o u)).map contribT)
        ((rs2.filter (keyMatch o u)).map contribT) :=
      (hp.filter _).map _
    rw [hperm.sum_eq]
  · intro x y z
    exact ⟨add_assoc x y z, add_comm x y, add_zero x, zero_add x⟩

/-- C4 (witness): concrete two-record partition, a transposition of it, and
concrete monoid instances. -/
theorem c4_monoid_fold_witness :
    (foldOwners [] ([exampleRecord] ++ [warnRecord])).isSome ∧
    lookupOU [("ENG", [("user1", ⟨1, 14400, 43200⟩)]),
        ("ENV", [("user3", ⟨1, 100, 100⟩)])] "ENG" "user1" =
      lookupOU [("ENG", [("user1", ⟨1, 14400, 43200⟩)])] "ENG" "user1" +
      lookupOU [("ENV", [("user3", ⟨1, 100, 100⟩)])] "ENG" "user1" ∧
    lookupOU [("ENG", [("user1", ⟨1, 14400, 43200⟩)]),
        ("ENV", [("user3", ⟨1, 100, 100⟩)])] "ENV" "user3" =
      lookupOU [("ENV", [("user3", ⟨1, 100, 100⟩)]),
        ("ENG", [("user1", ⟨1, 14400, 43200⟩)])] "ENV" "user3" ∧
    ((⟨1, 2, 3⟩ : Totals) + ⟨4, 5, 6⟩ + ⟨7, 8, 9⟩ =
      (⟨1, 2, 3⟩ : Totals) + ((⟨4, 5, 6⟩ : Totals) + ⟨7, 8, 9⟩)) := by
  refine ⟨?_, ?_, ?_, ?_⟩
  · exact c4_monoid_fold.1 [exampleRecord] [warnRecord]
      [("ENG", [("user1", ⟨1, 14400, 43200⟩)])]
      [("ENV", [("user3", ⟨1, 100, 100⟩)])] (by decide) (by decide)
  · exact c4_monoid_fold.2.1 [exampleRecord] [warnRecord]
      [("ENG", [("user1", ⟨1, 14400, 43200⟩)])]
      [("ENV", [("user3", ⟨1, 100, 100⟩)])]
      [("ENG", [("user1", ⟨1, 14400, 43200⟩)]),
        ("ENV", [("user3", ⟨1, 100, 100⟩)])]
      (by decide) (by decide) (by decide) "ENG" "user1"
  · exact c4_monoid_fold.2.2.1 [exampleRecord, warnRecord]
      [warnRecord, exampleRecord]
      [("ENG", [("user1", ⟨1, 14400, 43200⟩)]),
        ("ENV", [("user3", ⟨1, 100, 100⟩)])]
      [("ENV", [("user3", ⟨1, 100, 100⟩)]),
        ("ENG", [("user1", ⟨1, 14400, 43200⟩)])]
      (List.Perm.swap warnRecord exampleRecord [])
      (by decide) (by decide) "ENV" "user3"
  · exact (c4_monoid_fold.2.2.2 ⟨1, 2, 3⟩ ⟨4, 5, 6⟩ ⟨7, 8, 9⟩).1

/-- C5: for every successfully folded record set, the job counts of the
owner summaries and of the global per-user map both sum to the number of
records folded, and each user's global `Totals` is the sum of that user's
per-owner cells over all owners. -/
theorem c5_cross_check :
    ∀ (rs : List JobRecord) (os : Owners), foldOwners [] rs = some os →
      sumSummaryJobs (summariesOf os) = rs.length ∧
      sumJobsU (usersOf os) = rs.length ∧
      ∀ u, lookupT (usersOf os) u = (os.map (fun p => lookupT p.2 u)).sum := by
  intro rs os h
  have htot : totalJobs os = rs.length := by
    have h0 := foldOwners_totalJobs rs [] os h
    simpa [totalJobs] using h0
  refine ⟨by rw [sumSummaryJobs_summariesOf, htot],
    by rw [sumJobsU_usersOf, htot], ?_⟩
  intro u
  exact lookupT_usersOf os u
    (nodupInner_foldOwners rs [] os h (by intro p hp; cases hp))

/-- C5 (witness): three records, one user appearing under two owners. -/
theorem c5_cross_check_witness :
    sumSummaryJobs (summariesOf
      [("ENG", [("user1", ⟨1, 14400, 43200⟩)]),
       ("ENV", [("user3", ⟨1, 100, 100⟩)]),
       ("MAPS", [("user1", ⟨1, 14400, 43200⟩)])]) = 3 ∧
    lookupT (usersOf
      [("ENG", [("user1", ⟨1, 14400, 43200⟩)]),
       ("ENV", [("user3", ⟨1, 100, 100⟩)]),
       ("MAPS", [("user1", ⟨1, 14400, 43200⟩)])]) "user1" =
      ([("ENG", ([("user1", (⟨1, 14400, 43200⟩ : Totals))] : UserMap)),
        ("ENV", [("user3", ⟨1, 100, 100⟩)]),
        ("MAPS", [("user1", ⟨1, 14400, 43200⟩)])].map
          (fun p => lookupT p.2 "user1")).sum := by
  have h := c5_cross_check [exampleRecord, warnRecord, crossRecord]
    [("ENG", [("user1", ⟨1, 14400, 43200⟩)]),
     ("ENV", [("user3", ⟨1, 100, 100⟩)]),
     ("MAPS", [("user1", ⟨1, 14400, 43200⟩)])] (by decide)
  exact ⟨h.1, h.2.2 "user1"⟩

/-- C3 (counterexample): an input that fails the date-range grammar is NOT
reported — `parse_startend "abc"` silently returns the defaulted all-time
range `(0, epoch(4000-01-01))`. -/
theorem c3_counterexample :
    rangeMatch "abc" = none ∧
    parse_startend (some "abc") = some (0, defaultEnd) := by
  exact ⟨by decide, by decide⟩

/-- C3 (amended): a spec that fails the *range* grammar is silently treated
as absent (default all-time range, no error); a spec that matches the range
grammar but for which an embedded date string the resolver evaluates — the
start date (group 1), or the end date (group 3) — fails the date grammar
makes the resolver raise, producing no `DateRange`. -/
theorem c3_error_behaviour :
    (∀ s : String, s.data ≠ [] → rangeMatch s = none →
      parse_startend (some s) = some (0, defaultEnd)) ∧
    (∀ (s : String) (g1o : Option (List Char)) (dash : Bool)
        (g3o : Option (List Char)),
      rangeMatch s = some (g1o, dash, g3o) →
      ((∃ g1, g1o = some g1 ∧ parse_date g1 = none) ∨
       (∃ g3, g3o = some g3 ∧ parse_date g3 = none)) →
      parse_startend (some s) = none) := by
  constructor
  · intro s hne hrm
    simp only [parse_startend]
    rw [if_neg hne, hrm]
  · intro s g1o dash g3o hrm hbad
    have hne : s.data ≠ [] := by
      intro h0
      have h1 : rangeMatch s = some (none, false, none) := by
        unfold rangeMatch
        rw [h0]
        simp [splitDash]
      rw [h1] at hrm
      obtain ⟨hg1, hdash, hg3⟩ : (none = g1o ∧ false = dash ∧ none = g3o) := by
        simpa using hrm
      rcases hbad with ⟨g1, hg, _⟩ | ⟨g3, hg, _⟩
      · rw [← hg1] at hg; exact Option.noConfusion hg
      · rw [← hg3] at hg; exact Option.noConfusion hg
    simp only [parse_startend]
    rw [if_neg hne, hrm]
    rcases hbad with ⟨g1, hg, hpd⟩ | ⟨g3, hg, hpd3⟩
    · subst hg
      show (startCompute (some g1)).bind _ = none
      simp [startCompute, hpd]
    · subst hg
      cases hsc : startCompute g1o with
      | none =>
          show (startCompute g1o).bind _ = none
          rw [hsc]
          rfl
      | some st =>
          show (startCompute g1o).bind _ = none
          rw [hsc]
          show (endCompute g1o dash (some g3)).bind _ = none
          rw [show endCompute g1o dash (some g3) = none by
            simp [endCompute, endStrSel, hpd3]]
          rfl

/-- C3 (witness): `"abc"` silently defaults; `"201"` (bad start date),
`"-201"` (bad end date, start absent) and `"2018-201"` (valid start date,
bad end date) all raise. -/
theorem c3_error_behaviour_witness :
    parse_startend (some "abc") = some (0, defaultEnd) ∧
    parse_startend (some "201") = none ∧
    parse_startend (some "-201") = none ∧
    parse_startend (some "2018-201") = none := by
  refine ⟨c3_error_behaviour.1 "abc" (by decide) (by decide),
    c3_error_behaviour.2 "201" (some "201".data) false none (by decide)
      (Or.inl ⟨"201".data, rfl, by decide⟩),
    c3_error_behaviour.2 "-201" none true (some "201".data) (by decide)
      (Or.inr ⟨"201".data, rfl, by decide⟩),
    c3_error_behaviour.2 "2018-201" (some "2018".data) true (some "201".data)
      (by decide) (Or.inr ⟨"201".data, rfl, by decide⟩)⟩

/-- C6 (counterexample): `"9999"` is a 4-digit year string and `"999901"` a
year+month string with a valid month, yet the resolver raises on both:
the `case` dict of `next_datetime` eagerly computes
`t1 + relativedelta(years=1)`, which leaves `datetime`'s range for every
year-9999 instant — so no calendar-year or calendar-month range is
returned. -/
theorem c6_counterexample :
    parse_date "9999".data = some [9999] ∧
    parse_startend (some "9999") = none ∧
    parse_date "999901".data = some [9999, 1] ∧
    parse_startend (some "999901") = none := by
  exact ⟨by decide, by decide, by decide, by decide⟩

/-- C6 (amended): for every 4-digit year string of a year 1..9998 (the
eagerly-evaluated `relativedelta(years=1)` of `next_datetime`'s case dict
raises on every year-9999 input), the resolver spans exactly the UTC
calendar year — `end - start` is 366 or 365 days of seconds by leapness —
and for every year+month string of such a year with a valid month it spans
exactly one calendar month, ending at the first instant of the rolled-over
month (rolling across the year boundary for December). -/
theorem c6_next_unit :
    (∀ (s : String) (y : Nat), parse_date s.data = some [y] → 1 ≤ y → y ≤ 9998 →
      parse_startend (some s) =
        some (epochOf y 1 1 0 0 0, epochOf (y + 1) 1 1 0 0 0) ∧
      epochOf (y + 1) 1 1 0 0 0 - epochOf y 1 1 0 0 0 =
        (if isLeap y then 366 else 365) * 86400) ∧
    (∀ (s : String) (y m : Nat), parse_date s.data = some [y, m] →
      1 ≤ y → y ≤ 9998 → 1 ≤ m → m ≤ 12 →
      parse_startend (some s) = some (epochOf y m 1 0 0 0,
        epochOf (rollMonth y m).1 (rollMonth y m).2 1 0 0 0)) := by
  constructor
  · intro s y h hy1 hy2
    have hy9 : ¬ y = 9999 := by omega
    have h31 : daysInMonth y 1 = 31 := by simp [daysInMonth]
    have h31' : daysInMonth (y + 1) 1 = 31 := by simp [daysInMonth]
    have hv : validDT y 1 1 0 0 0 := by
      refine ⟨hy1, by omega, by omega, by omega, by omega, by omega, by omega,
        by omega, by omega⟩
    have hv2 : validDT (y + 1) 1 1 0 0 0 := by
      refine ⟨by omega, by omega, by omega, by omega, by omega, by omega,
        by omega, by omega, by omega⟩
    constructor
    · rw [parse_startend_digits s [y] h]
      simp [datetime_defaults, mkdtList, next_datetime, mkdt, if_pos hv,
        if_pos hv2, hy9]
    · exact epoch_year_span y hy1
  · intro s y m h hy1 hy2 hm1 hm2
    have hy9 : ¬ y = 9999 := by omega
    have hd : 1 ≤ daysInMonth y m := daysInMonth_pos y m
    have hv : validDT y m 1 0 0 0 :=
      ⟨hy1, by omega, hm1, hm2, by omega, hd, by omega, by omega, by omega⟩
    have hv2 : validDT (rollMonth y m).1 (rollMonth y m).2 1 0 0 0 := by
      by_cases h12 : m = 12
      · have hroll : rollMonth y 12 = (y + 1, 1) := by simp [rollMonth]
        subst h12
        rw [hroll]
        show validDT (y + 1) 1 1 0 0 0
        have h31 : daysInMonth (y + 1) 1 = 31 := by simp [daysInMonth]
        exact ⟨by omega, by omega, by omega, by omega, by omega, by omega,
          by omega, by omega, by omega⟩
      · have hroll : rollMonth y m = (y, m + 1) := by rw [rollMonth, if_neg h12]
        rw [hroll]
        show validDT y (m + 1) 1 0 0 0
        have hd2 : 1 ≤ daysInMonth y (m + 1) := daysInMonth_pos y (m + 1)
        exact ⟨hy1, by omega, by omega, by omega, by omega, hd2, by omega,
          by omega, by omega⟩
    rw [parse_startend_digits s [y, m] h]
    simp [datetime_defaults, mkdtList, next_datetime, mkdt, if_pos hv,
      if_pos hv2, hy9]

/-- C6 (witness): the leap year 2016, the non-leap year 2018, and the
Dec→Jan rollover of `"201812"`. -/
theorem c6_next_unit_witness :
    parse_startend (some "2016") =
      some (epochOf 2016 1 1 0 0 0, epochOf (2016 + 1) 1 1 0 0 0) ∧
    epochOf (2016 + 1) 1 1 0 0 0 - epochOf 2016 1 1 0 0 0 =
      (if isLeap 2016 then 366 else 365) * 86400 ∧
    parse_startend (some "2018") =
      some (epochOf 2018 1 1 0 0 0, epochOf (2018 + 1) 1 1 0 0 0) ∧
    parse_startend (some "201812") = some (epochOf 2018 12 1 0 0 0,
      epochOf (rollMonth 2018 12).1 (rollMonth 2018 12).2 1 0 0 0) := by
  refine ⟨?_, ?_, ?_, ?_⟩
  · exact (c6_next_unit.1 "2016" 2016 (by decide) (by decide) (by decide)).1
  · exact (c6_next_unit.1 "2016" 2016 (by decide) (by decide) (by decide)).2
  · exact (c6_next_unit.1 "2018" 2018 (by decide) (by decide) (by decide)).1
  · exact c6_next_unit.2 "201812" 2018 12 (by decide) (by decide) (by decide)
      (by decide) (by decide)

/-- C7 (counterexample): `"2018-"` does not end at the sentinel's epoch: its
end bound is `next_datetime` of the sentinel, one day *past* it, whereas the
empty spec ends exactly at the sentinel's epoch — the two differ by 86400. -/
theorem c7_counterexample :
    parse_startend (some "2018-") = some (1514764800, defaultEnd + 86400) ∧
    parse_startend none = some (0, defaultEnd) ∧
    defaultEnd + 86400 ≠ defaultEnd := by
  exact ⟨by decide, by decide, by decide⟩

/-- C7 (amended): for every date string `A` with a computable start bound,
`resolve (A ++ "-")` yields `(start(A), epoch(4000-01-02))` — one calendar
day past the `"40000101"` sentinel, 86400 s beyond the empty-spec upper
bound `epoch(4000-01-01)`. -/
theorem c7_open_range :
    ∀ (s : String) (comps : List Nat) (st : Int),
      parse_date s.data = some comps →
      mkdtList (datetime_defaults comps) = some st →
      parse_startend (some (s ++ "-")) = some (st, defaultEnd + 86400) ∧
      parse_startend none = some (0, defaultEnd) := by
  intro s comps st hpd hst
  obtain ⟨hd, hne, _⟩ := parse_date_facts s.data comps hpd
  refine ⟨?_, rfl⟩
  have hne2 : (s ++ "-").data ≠ [] := by
    rw [String.data_append]
    simp
  simp only [parse_startend]
  rw [if_neg hne2, rangeMatch_open s hne hd]
  show (startCompute (some s.data)).bind
    (fun st => (endCompute (some s.data) true none).bind (fun en => some (st, en))) = _
  rw [show startCompute (some s.data) = some st by simp [startCompute, hpd, hst]]
  have hend : endCompute (some s.data) true none = some (defaultEnd + 86400) := by
    unfold endCompute
    rw [show endStrSel (some s.data) true none = max_date.data from rfl]
    rw [show parse_date max_date.data = some [4000, 1, 1] from by decide]
    decide
  rw [hend]
  rfl

/-- C7 (witness): instantiated at `A = "2018"`. -/
theorem c7_open_range_witness :
    parse_startend (some ("2018" ++ "-")) =
      some (epochOf 2018 1 1 0 0 0, defaultEnd + 86400) ∧
    parse_startend none = some (0, defaultEnd) := by
  exact c7_open_range "2018" [2018] (epochOf 2018 1 1 0 0 0) (by decide) (by decide)

/-- C9 (counterexample): the resolver enforces no `start <= end` invariant —
`"2020-2018"` yields start = epoch(2020-01-01) = 1577836800 strictly greater
than end = epoch(2019-01-01) = 1546300800. -/
theorem c9_counterexample :
    parse_startend (some "2020-2018") = some (1577836800, 1546300800) ∧
    ¬ ((1577836800 : Int) ≤ 1546300800) := by
  exact ⟨by decide, by decide⟩

/-- C9 (amended): `start <= end` does hold for the empty spec and for every
bare single-date spec (no hyphen); hyphenated specs (`A-B` with `A` after
`next_unit(B)`, `-B` ending before 1970, `A-` past the sentinel) can invert
the bounds. -/
theorem c9_start_le_end :
    (parse_startend none = some (0, defaultEnd) ∧ (0 : Int) ≤ defaultEnd) ∧
    (∀ (s : String) (comps : List Nat) (st en : Int),
      parse_date s.data = some comps →
      parse_startend (some s) = some (st, en) → st ≤ en) := by
  refine ⟨⟨rfl, by decide⟩, ?_⟩
  intro s comps st en hpd hps
  rw [parse_startend_digits s comps hpd] at hps
  cases hst : mkdtList (datetime_defaults comps) with
  | none => rw [hst] at hps; simp at hps
  | some st' =>
      rw [hst] at hps
      cases hen : next_datetime comps with
      | none => rw [hen] at hps; simp at hps
      | some en' =>
          rw [hen] at hps
          simp at hps
          have h1 := start_le_next comps st' en' hst hen
          omega

/-- C9 (witness): instantiated at the bare spec `"2018"`. -/
theorem c9_start_le_end_witness :
    (0 : Int) ≤ defaultEnd ∧ (1514764800 : Int) ≤ 1546300800 := by
  exact ⟨c9_start_le_end.1.2,
    c9_start_le_end.2 "2018" [2018] 1514764800 1546300800 (by decide) (by decide)⟩

/-- C10: a spec matching the range grammar whose embedded date matches the
date grammar but carries a component outside its calendar range (the
`datetime` constructor rejects it, `mkdtList` yields `none`, or the stepped
end instant is unrepresentable) makes the resolver raise — it returns no
`DateRange` and clamps nothing. -/
theorem c10_invalid_component :
    ∀ (s : String) (g1 : Option (List Char)) (dash : Bool) (g3 : Option (List Char)),
      rangeMatch s = some (g1, dash, g3) →
      ((∃ d comps, g1 = some d ∧ parse_date d = some comps ∧
          mkdtList (datetime_defaults comps) = none) ∨
       (∃ comps, parse_date (endStrSel g1 dash g3) = some comps ∧
          next_datetime comps = none)) →
      parse_startend (some s) = none := by
  intro s g1 dash g3 hrm hbad
  have hne : s.data ≠ [] := by
    intro h0
    have h1 : rangeMatch s = some (none, false, none) := by
      unfold rangeMatch
      rw [h0]
      simp [splitDash]
    rw [h1] at hrm
    obtain ⟨hg1, hdash, hg3⟩ : (none = g1 ∧ false = dash ∧ none = g3) := by
      simpa using hrm
    rcases hbad with ⟨d, comps, hd, _, _⟩ | ⟨comps, hpd, _⟩
    · rw [← hg1] at hd; exact Option.noConfusion hd
    · rw [← hg1, ← hdash, ← hg3] at hpd
      rw [show endStrSel none false none = [] from rfl] at hpd
      rw [show parse_date [] = none from by decide] at hpd
      exact Option.noConfusion hpd
  simp only [parse_startend]
  rw [if_neg hne, hrm]
  rcases hbad with ⟨d, comps, hg1, hpd, hmk⟩ | ⟨comps, hpd, hnd⟩
  · subst hg1
    show (startCompute (some d)).bind _ = none
    simp [startCompute, hpd, hmk]
  · cases hsc : startCompute g1 with
    | none =>
        show (startCompute g1).bind _ = none
        rw [hsc]
        rfl
    | some st =>
        show (startCompute g1).bind _ = none
        rw [hsc]
        show (endCompute g1 dash g3).bind _ = none
        rw [show endCompute g1 dash g3 = none by simp [endCompute, hpd, hnd]]
        rfl

/-- C10 (witness): `"201813"` — month 13 — raises; no `DateRange` results. -/
theorem c10_invalid_component_witness :
    parse_startend (some "201813") = none := by
  exact c10_invalid_component "201813" (some "201813".data) false none (by decide)
    (Or.inl ⟨"201813".data, [2018, 13], rfl, by decide, by decide⟩)

end Acct
